import Mathlib

/-!
Shallow embedding of the `c_to_mips` MIPS assembler/emulator
(`src/mips_assembler/src/main.rs`).

Machine integers are modelled as `Nat` (with explicit `% 2^32` / `% 2^64`
where Rust wrapping applies) and `Int` for the places the source casts to
`i16`/`i32`/`i64`.  Fallible code (Rust `panic!`, `unwrap`, array
out-of-bounds, uninitialized-memory reads) is modelled with `Option` /
`Except`.  Standard input and output are modelled as byte lists threaded
through the emulator state.
-/

/-- The operand model: `enum Value { Literal(u32), Label(String) }`. -/
inductive Value where
  | Literal (v : Nat)
  | Label (s : String)
deriving DecidableEq

/-- `Value::to_u32`, which panics on a `Label`; the panic is `none`. -/
def Value.toU32? : Value → Option Nat
  | .Literal v => some v
  | .Label _ => none

/-- The instruction model: `enum Instruction` of the source, one constructor
per variant, register fields as `Nat` (`u8` in the source). -/
inductive Instruction where
  | Add (d s t : Nat)
  | Sub (d s t : Nat)
  | Slt (d s t : Nat)
  | Sltu (d s t : Nat)
  | Mult (s t : Nat)
  | Multu (s t : Nat)
  | Div (s t : Nat)
  | Divu (s t : Nat)
  | Mfhi (d : Nat)
  | Mflo (d : Nat)
  | Lis (d : Nat)
  | Lw (t : Nat) (i : Value) (s : Nat)
  | Sw (t : Nat) (i : Value) (s : Nat)
  | Beq (s t : Nat) (i : Value)
  | Bne (s t : Nat) (i : Value)
  | Jr (s : Nat)
  | Jalr (s : Nat)
  | Word (i : Value)
  | Noop
deriving DecidableEq

/-- `fn std_word(s: u8, t: u8, d: u8, opcode: u16) -> u32`.
With `s,t,d ≤ 255` and `opcode ≤ 65535` no shift can leave the `u32`
range, so no truncation is needed. -/
def std_word (s t d opcode : Nat) : Nat :=
  (s <<< 21) ||| (t <<< 16) ||| (d <<< 11) ||| opcode

/-- `fn sti_word(opcode: u8, s: u8, t: u8, i: u32) -> u32`.
`(opcode as u32) << 26` can shift bits out of the `u32` range for a
general `u8` opcode, hence the `% 2^32` on that term. -/
def sti_word (opcode s t i : Nat) : Nat :=
  ((opcode <<< 26) % 4294967296) ||| (s <<< 21) ||| (t <<< 16) ||| (i &&& 0xFFFF)

/-- `Instruction::assemble`, with `unreachable!()`/`to_u32` panics as `none`. -/
def assemble : Instruction → Option Nat
  | .Add d s t => some (std_word s t d 0x20)
  | .Sub d s t => some (std_word s t d 0x22)
  | .Slt d s t => some (std_word s t d 0x2a)
  | .Sltu d s t => some (std_word s t d 0x2b)
  | .Mult s t => some (std_word s t 0 0x18)
  | .Multu s t => some (std_word s t 0 0x19)
  | .Div s t => some (std_word s t 0 0x1a)
  | .Divu s t => some (std_word s t 0 0x1b)
  | .Mfhi d => some (std_word 0 0 d 0x10)
  | .Mflo d => some (std_word 0 0 d 0x12)
  | .Lis d => some (std_word 0 0 d 0x14)
  | .Lw t i s => i.toU32?.map (fun n => sti_word 0b100011 s t n)
  | .Sw t i s => i.toU32?.map (fun n => sti_word 0b101011 s t n)
  | .Beq s t i => i.toU32?.map (fun n => sti_word 0b000100 s t n)
  | .Bne s t i => i.toU32?.map (fun n => sti_word 0b000101 s t n)
  | .Jr s => some (sti_word 0b000000 s 0 0b1000)
  | .Jalr s => some (sti_word 0b000000 s 0 0b1001)
  | .Word i => i.toU32?
  | .Noop => none

/-- `Instruction::disassemble`.  The source's `match` on the opcode fields
is rendered as the equivalent chain of equality tests. -/
def disassemble (word : Nat) : Instruction :=
  let first_opcode := word >>> 26
  let second_opcode := word &&& 0b111111
  let s := (word >>> 21) &&& 0b11111
  let t := (word >>> 16) &&& 0b11111
  let d := (word >>> 11) &&& 0b11111
  let i := Value.Literal (word &&& 0xFFFF)
  if first_opcode = 0b100011 then .Lw t i s
  else if first_opcode = 0b101011 then .Sw t i s
  else if first_opcode = 0b000100 then .Beq s t i
  else if first_opcode = 0b000101 then .Bne s t i
  else if first_opcode = 0b000000 then
    (if second_opcode = 0b100000 then .Add d s t
     else if second_opcode = 0b100010 then .Sub d s t
     else if second_opcode = 0b011000 then .Mult s t
     else if second_opcode = 0b011001 then .Multu s t
     else if second_opcode = 0b011010 then .Div s t
     else if second_opcode = 0b011011 then .Divu s t
     else if second_opcode = 0b010000 then .Mfhi d
     else if second_opcode = 0b010010 then .Mflo d
     else if second_opcode = 0b010100 then .Lis d
     else if second_opcode = 0b101010 then .Slt d s t
     else if second_opcode = 0b101011 then .Sltu d s t
     else if second_opcode = 0b001000 then .Jr s
     else if second_opcode = 0b001001 then .Jalr s
     else .Word (.Literal word))
  else .Word (.Literal word)

/-! Bit-arithmetic bridge lemmas: the encoders build words with `<<<` and
`|||`, the decoder reads fields with `>>>` and `&&&`; these lemmas convert
both to plain arithmetic so that `omega` can finish field extraction. -/

theorem testBit_pow_mul_add_low {a b n i : Nat} (hb : b < 2 ^ n) (h : i < n) :
    (2 ^ n * a + b).testBit i = b.testBit i := by
  rw [Nat.testBit_to_div_mod, Nat.testBit_to_div_mod]
  have hpow : 2 ^ n = 2 ^ i * 2 ^ (n - i) := by
    rw [← pow_add]
    congr 1
    omega
  have hni : 0 < n - i := by omega
  have h2 : ∃ k, 2 ^ (n - i) = 2 * k := ⟨2 ^ (n - i - 1), by
    rw [← pow_succ']
    congr 1
    omega⟩
  obtain ⟨k, hk⟩ := h2
  rw [hpow, Nat.mul_assoc, Nat.mul_add_div (Nat.pos_pow_of_pos i (by norm_num))]
  rw [hk]
  have hrw : 2 * k * a = 2 * (k * a) := by ring
  have hmod : (2 * k * a + b / 2 ^ i) % 2 = b / 2 ^ i % 2 := by
    rw [hrw, Nat.add_comm, Nat.add_mul_mod_self_left]
  rw [hmod]

theorem testBit_pow_mul_add_high {a b n i : Nat} (hb : b < 2 ^ n) (h : n ≤ i) :
    (2 ^ n * a + b).testBit i = a.testBit (i - n) := by
  rw [Nat.testBit_to_div_mod, Nat.testBit_to_div_mod]
  have hpow : 2 ^ i = 2 ^ n * 2 ^ (i - n) := by
    rw [← pow_add]
    congr 1
    omega
  rw [hpow, ← Nat.div_div_eq_div_mul, Nat.mul_add_div (Nat.pos_pow_of_pos n (by norm_num)),
    Nat.div_eq_of_lt hb, Nat.add_zero]

theorem shiftLeft_lor_eq {a b n : Nat} (hb : b < 2 ^ n) :
    (a <<< n) ||| b = 2 ^ n * a + b := by
  apply Nat.eq_of_testBit_eq
  intro i
  rw [Nat.testBit_lor, Nat.testBit_shiftLeft]
  rcases Nat.lt_or_ge i n with h | h
  · rw [testBit_pow_mul_add_low hb h]
    have : ¬ (i ≥ n) := by omega
    simp [this]
  · rw [testBit_pow_mul_add_high hb h]
    have hbi : b < 2 ^ i := lt_of_lt_of_le hb (Nat.pow_le_pow_right (by norm_num) h)
    simp [h, Nat.testBit_eq_false_of_lt hbi]

theorem and_mask16 (x : Nat) : x &&& 65535 = x % 65536 := by
  have h := Nat.and_pow_two_sub_one_eq_mod x 16
  norm_num at h
  exact h

theorem and_mask31 (x : Nat) : x &&& 31 = x % 32 := by
  have h := Nat.and_pow_two_sub_one_eq_mod x 5
  norm_num at h
  exact h

theorem and_mask63 (x : Nat) : x &&& 63 = x % 64 := by
  have h := Nat.and_pow_two_sub_one_eq_mod x 6
  norm_num at h
  exact h

theorem and_mask32bit (x : Nat) : x &&& 4294967295 = x % 4294967296 := by
  have h := Nat.and_pow_two_sub_one_eq_mod x 32
  norm_num at h
  exact h

theorem std_word_eq {s t d op : Nat} (hs : s < 32) (ht : t < 32) (hd : d < 32)
    (hop : op < 2048) :
    std_word s t d op = 2097152 * s + 65536 * t + 2048 * d + op := by
  unfold std_word
  rw [Nat.lor_assoc, Nat.lor_assoc]
  rw [shiftLeft_lor_eq (show op < 2 ^ 11 by omega)]
  rw [shiftLeft_lor_eq (show 2 ^ 11 * d + op < 2 ^ 16 by norm_num; omega)]
  rw [shiftLeft_lor_eq (show 2 ^ 16 * t + (2 ^ 11 * d + op) < 2 ^ 21 by norm_num; omega)]
  norm_num
  ring

theorem sti_word_eq {op s t : Nat} (i : Nat) (hop : op < 64) (hs : s < 32) (ht : t < 32) :
    sti_word op s t i = 67108864 * op + 2097152 * s + 65536 * t + i % 65536 := by
  unfold sti_word
  rw [and_mask16]
  rw [Nat.lor_assoc, Nat.lor_assoc]
  rw [shiftLeft_lor_eq (show i % 65536 < 2 ^ 16 by norm_num; omega)]
  rw [shiftLeft_lor_eq (show 2 ^ 16 * t + i % 65536 < 2 ^ 21 by
    have := Nat.mod_lt i (show 0 < 65536 by norm_num)
    norm_num
    omega)]
  rw [Nat.mod_eq_of_lt (show op <<< 26 < 4294967296 by
    rw [Nat.shiftLeft_eq]
    norm_num
    omega)]
  rw [shiftLeft_lor_eq (show 2 ^ 21 * s + (2 ^ 16 * t + i % 65536) < 2 ^ 26 by
    have := Nat.mod_lt i (show 0 < 65536 by norm_num)
    norm_num
    omega)]
  norm_num
  ring

theorem std_word_shr26 {s t d op : Nat} (hs : s < 32) (ht : t < 32) (hd : d < 32)
    (hop : op < 2048) : std_word s t d op >>> 26 = 0 := by
  rw [std_word_eq hs ht hd hop, Nat.shiftRight_eq_div_pow]
  norm_num
  omega

theorem std_word_and63 {s t d op : Nat} (hs : s < 32) (ht : t < 32) (hd : d < 32)
    (hop : op < 64) : std_word s t d op &&& 63 = op := by
  rw [std_word_eq hs ht hd (by omega), and_mask63]
  omega

theorem std_word_s {s t d op : Nat} (hs : s < 32) (ht : t < 32) (hd : d < 32)
    (hop : op < 2048) : (std_word s t d op >>> 21) &&& 31 = s := by
  rw [std_word_eq hs ht hd hop, Nat.shiftRight_eq_div_pow, and_mask31]
  norm_num
  omega

theorem std_word_t {s t d op : Nat} (hs : s < 32) (ht : t < 32) (hd : d < 32)
    (hop : op < 2048) : (std_word s t d op >>> 16) &&& 31 = t := by
  rw [std_word_eq hs ht hd hop, Nat.shiftRight_eq_div_pow, and_mask31]
  norm_num
  omega

theorem std_word_d {s t d op : Nat} (hs : s < 32) (ht : t < 32) (hd : d < 32)
    (hop : op < 2048) : (std_word s t d op >>> 11) &&& 31 = d := by
  rw [std_word_eq hs ht hd hop, Nat.shiftRight_eq_div_pow, and_mask31]
  norm_num
  omega

theorem sti_word_shr26 {op s t : Nat} (i : Nat) (hop : op < 64) (hs : s < 32)
    (ht : t < 32) : sti_word op s t i >>> 26 = op := by
  rw [sti_word_eq i hop hs ht, Nat.shiftRight_eq_div_pow]
  have hi : i % 65536 < 65536 := Nat.mod_lt i (by norm_num)
  norm_num
  omega

theorem sti_word_s {op s t : Nat} (i : Nat) (hop : op < 64) (hs : s < 32)
    (ht : t < 32) : (sti_word op s t i >>> 21) &&& 31 = s := by
  rw [sti_word_eq i hop hs ht, Nat.shiftRight_eq_div_pow, and_mask31]
  have hi : i % 65536 < 65536 := Nat.mod_lt i (by norm_num)
  norm_num
  omega

theorem sti_word_t {op s t : Nat} (i : Nat) (hop : op < 64) (hs : s < 32)
    (ht : t < 32) : (sti_word op s t i >>> 16) &&& 31 = t := by
  rw [sti_word_eq i hop hs ht, Nat.shiftRight_eq_div_pow, and_mask31]
  have hi : i % 65536 < 65536 := Nat.mod_lt i (by norm_num)
  norm_num
  omega

theorem sti_word_imm {op s t : Nat} (i : Nat) (hop : op < 64) (hs : s < 32)
    (ht : t < 32) : sti_word op s t i &&& 65535 = i % 65536 := by
  rw [sti_word_eq i hop hs ht, and_mask16]
  omega

theorem sti_word_and63 {op s t : Nat} (i : Nat) (hop : op < 64) (hs : s < 32)
    (ht : t < 32) : sti_word op s t i &&& 63 = i % 64 := by
  rw [sti_word_eq i hop hs ht, and_mask63]
  omega

/-- Valid field assignment for the round-trip claim: register indices in
`[0,31]`, immediates literal and 16-bit, `.word` operand literal `u32`. -/
def fieldsValid : Instruction → Bool
  | .Add d s t => d < 32 && s < 32 && t < 32
  | .Sub d s t => d < 32 && s < 32 && t < 32
  | .Slt d s t => d < 32 && s < 32 && t < 32
  | .Sltu d s t => d < 32 && s < 32 && t < 32
  | .Mult s t => s < 32 && t < 32
  | .Multu s t => s < 32 && t < 32
  | .Div s t => s < 32 && t < 32
  | .Divu s t => s < 32 && t < 32
  | .Mfhi d => d < 32
  | .Mflo d => d < 32
  | .Lis d => d < 32
  | .Lw t (.Literal n) s => t < 32 && s < 32 && n < 65536
  | .Sw t (.Literal n) s => t < 32 && s < 32 && n < 65536
  | .Beq s t (.Literal n) => s < 32 && t < 32 && n < 65536
  | .Bne s t (.Literal n) => s < 32 && t < 32 && n < 65536
  | .Jr s => s < 32
  | .Jalr s => s < 32
  | .Word (.Literal n) => n < 4294967296
  | _ => false

/-- A word pattern is recognized when `disassemble` maps it to one of the
named opcodes rather than to the `.word` fallback. -/
def recognizedB (w : Nat) : Bool :=
  (w >>> 26 == 35) || (w >>> 26 == 43) || (w >>> 26 == 4) || (w >>> 26 == 5) ||
  ((w >>> 26 == 0) &&
    ((w &&& 63 == 32) || (w &&& 63 == 34) || (w &&& 63 == 24) || (w &&& 63 == 25) ||
     (w &&& 63 == 26) || (w &&& 63 == 27) || (w &&& 63 == 16) || (w &&& 63 == 18) ||
     (w &&& 63 == 20) || (w &&& 63 == 42) || (w &&& 63 == 43) || (w &&& 63 == 8) ||
     (w &&& 63 == 9)))

/-- Side condition isolating the `.word` operands whose bit pattern does not
collide with a recognized instruction encoding. -/
def wordOk : Instruction → Bool
  | .Word (.Literal n) => !(recognizedB n)
  | _ => true

/-- C4 (corrected): for every instruction except `noop` with literal,
in-range operands, `decode(encode(x)) = x` — except that a `.word` operand
whose bit pattern collides with a recognized instruction encoding decodes
to that instruction instead; the law holds for every other instruction and
for `.word` operands with unrecognized patterns. -/
theorem decode_encode_roundtrip (x : Instruction) (hx : x ≠ .Noop)
    (hv : fieldsValid x = true) (hw : wordOk x = true) :
    ∃ w, assemble x = some w ∧ disassemble w = x := by
  cases x with
  | Add d s t =>
    simp only [fieldsValid, Bool.and_eq_true, decide_eq_true_eq] at hv
    obtain ⟨⟨hd, hs⟩, ht⟩ := hv
    refine ⟨_, rfl, ?_⟩
    simp only [disassemble]
    rw [std_word_shr26 hs ht hd (show (0x20:Nat) < 2048 by norm_num),
        std_word_and63 hs ht hd (show (0x20:Nat) < 64 by norm_num),
        std_word_s hs ht hd (show (0x20:Nat) < 2048 by norm_num),
        std_word_t hs ht hd (show (0x20:Nat) < 2048 by norm_num),
        std_word_d hs ht hd (show (0x20:Nat) < 2048 by norm_num)]
    norm_num
  | Sub d s t =>
    simp only [fieldsValid, Bool.and_eq_true, decide_eq_true_eq] at hv
    obtain ⟨⟨hd, hs⟩, ht⟩ := hv
    refine ⟨_, rfl, ?_⟩
    simp only [disassemble]
    rw [std_word_shr26 hs ht hd (show (0x22:Nat) < 2048 by norm_num),
        std_word_and63 hs ht hd (show (0x22:Nat) < 64 by norm_num),
        std_word_s hs ht hd (show (0x22:Nat) < 2048 by norm_num),
        std_word_t hs ht hd (show (0x22:Nat) < 2048 by norm_num),
        std_word_d hs ht hd (show (0x22:Nat) < 2048 by norm_num)]
    norm_num
  | Slt d s t =>
    simp only [fieldsValid, Bool.and_eq_true, decide_eq_true_eq] at hv
    obtain ⟨⟨hd, hs⟩, ht⟩ := hv
    refine ⟨_, rfl, ?_⟩
    simp only [disassemble]
    rw [std_word_shr26 hs ht hd (show (0x2a:Nat) < 2048 by norm_num),
        std_word_and63 hs ht hd (show (0x2a:Nat) < 64 by norm_num),
        std_word_s hs ht hd (show (0x2a:Nat) < 2048 by norm_num),
        std_word_t hs ht hd (show (0x2a:Nat) < 2048 by norm_num),
        std_word_d hs ht hd (show (0x2a:Nat) < 2048 by norm_num)]
    norm_num
  | Sltu d s t =>
    simp only [fieldsValid, Bool.and_eq_true, decide_eq_true_eq] at hv
    obtain ⟨⟨hd, hs⟩, ht⟩ := hv
    refine ⟨_, rfl, ?_⟩
    simp only [disassemble]
    rw [std_word_shr26 hs ht hd (show (0x2b:Nat) < 2048 by norm_num),
        std_word_and63 hs ht hd (show (0x2b:Nat) < 64 by norm_num),
        std_word_s hs ht hd (show (0x2b:Nat) < 2048 by norm_num),
        std_word_t hs ht hd (show (0x2b:Nat) < 2048 by norm_num),
        std_word_d hs ht hd (show (0x2b:Nat) < 2048 by norm_num)]
    norm_num
  | Mult s t =>
    simp only [fieldsValid, Bool.and_eq_true, decide_eq_true_eq] at hv
    obtain ⟨hs, ht⟩ := hv
    have hd : (0:Nat) < 32 := by norm_num
    refine ⟨_, rfl, ?_⟩
    simp only [disassemble]
    rw [std_word_shr26 hs ht hd (show (0x18:Nat) < 2048 by norm_num),
        std_word_and63 hs ht hd (show (0x18:Nat) < 64 by norm_num),
        std_word_s hs ht hd (show (0x18:Nat) < 2048 by norm_num),
        std_word_t hs ht hd (show (0x18:Nat) < 2048 by norm_num)]
    norm_num
  | Multu s t =>
    simp only [fieldsValid, Bool.and_eq_true, decide_eq_true_eq] at hv
    obtain ⟨hs, ht⟩ := hv
    have hd : (0:Nat) < 32 := by norm_num
    refine ⟨_, rfl, ?_⟩
    simp only [disassemble]
    rw [std_word_shr26 hs ht hd (show (0x19:Nat) < 2048 by norm_num),
        std_word_and63 hs ht hd (show (0x19:Nat) < 64 by norm_num),
        std_word_s hs ht hd (show (0x19:Nat) < 2048 by norm_num),
        std_word_t hs ht hd (show (0x19:Nat) < 2048 by norm_num)]
    norm_num
  | Div s t =>
    simp only [fieldsValid, Bool.and_eq_true, decide_eq_true_eq] at hv
    obtain ⟨hs, ht⟩ := hv
    have hd : (0:Nat) < 32 := by norm_num
    refine ⟨_, rfl, ?_⟩
    simp only [disassemble]
    rw [std_word_shr26 hs ht hd (show (0x1a:Nat) < 2048 by norm_num),
        std_word_and63 hs ht hd (show (0x1a:Nat) < 64 by norm_num),
        std_word_s hs ht hd (show (0x1a:Nat) < 2048 by norm_num),
        std_word_t hs ht hd (show (0x1a:Nat) < 2048 by norm_num)]
    norm_num
  | Divu s t =>
    simp only [fieldsValid, Bool.and_eq_true, decide_eq_true_eq] at hv
    obtain ⟨hs, ht⟩ := hv
    have hd : (0:Nat) < 32 := by norm_num
    refine ⟨_, rfl, ?_⟩
    simp only [disassemble]
    rw [std_word_shr26 hs ht hd (show (0x1b:Nat) < 2048 by norm_num),
        std_word_and63 hs ht hd (show (0x1b:Nat) < 64 by norm_num),
        std_word_s hs ht hd (show (0x1b:Nat) < 2048 by norm_num),
        std_word_t hs ht hd (show (0x1b:Nat) < 2048 by norm_num)]
    norm_num
  | Mfhi d =>
    simp only [fieldsValid, decide_eq_true_eq] at hv
    have h0 : (0:Nat) < 32 := by norm_num
    refine ⟨_, rfl, ?_⟩
    simp only [disassemble]
    rw [std_word_shr26 h0 h0 hv (show (0x10:Nat) < 2048 by norm_num),
        std_word_and63 h0 h0 hv (show (0x10:Nat) < 64 by norm_num),
        std_word_d h0 h0 hv (show (0x10:Nat) < 2048 by norm_num)]
    norm_num
  | Mflo d =>
    simp only [fieldsValid, decide_eq_true_eq] at hv
    have h0 : (0:Nat) < 32 := by norm_num
    refine ⟨_, rfl, ?_⟩
    simp only [disassemble]
    rw [std_word_shr26 h0 h0 hv (show (0x12:Nat) < 2048 by norm_num),
        std_word_and63 h0 h0 hv (show (0x12:Nat) < 64 by norm_num),
        std_word_d h0 h0 hv (show (0x12:Nat) < 2048 by norm_num)]
    norm_num
  | Lis d =>
    simp only [fieldsValid, decide_eq_true_eq] at hv
    have h0 : (0:Nat) < 32 := by norm_num
    refine ⟨_, rfl, ?_⟩
    simp only [disassemble]
    rw [std_word_shr26 h0 h0 hv (show (0x14:Nat) < 2048 by norm_num),
        std_word_and63 h0 h0 hv (show (0x14:Nat) < 64 by norm_num),
        std_word_d h0 h0 hv (show (0x14:Nat) < 2048 by norm_num)]
    norm_num
  | Lw t i s =>
    cases i with
    | Label l => simp [fieldsValid] at hv
    | Literal n =>
      simp only [fieldsValid, Bool.and_eq_true, decide_eq_true_eq] at hv
      obtain ⟨⟨ht, hs⟩, hn⟩ := hv
      refine ⟨_, rfl, ?_⟩
      simp only [disassemble]
      rw [sti_word_shr26 n (show (35:Nat) < 64 by norm_num) hs ht,
          sti_word_s n (show (35:Nat) < 64 by norm_num) hs ht,
          sti_word_t n (show (35:Nat) < 64 by norm_num) hs ht,
          sti_word_imm n (show (35:Nat) < 64 by norm_num) hs ht,
          Nat.mod_eq_of_lt hn]
      norm_num
  | Sw t i s =>
    cases i with
    | Label l => simp [fieldsValid] at hv
    | Literal n =>
      simp only [fieldsValid, Bool.and_eq_true, decide_eq_true_eq] at hv
      obtain ⟨⟨ht, hs⟩, hn⟩ := hv
      refine ⟨_, rfl, ?_⟩
      simp only [disassemble]
      rw [sti_word_shr26 n (show (43:Nat) < 64 by norm_num) hs ht,
          sti_word_s n (show (43:Nat) < 64 by norm_num) hs ht,
          sti_word_t n (show (43:Nat) < 64 by norm_num) hs ht,
          sti_word_imm n (show (43:Nat) < 64 by norm_num) hs ht,
          Nat.mod_eq_of_lt hn]
      norm_num
  | Beq s t i =>
    cases i with
    | Label l => simp [fieldsValid] at hv
    | Literal n =>
      simp only [fieldsValid, Bool.and_eq_true, decide_eq_true_eq] at hv
      obtain ⟨⟨hs, ht⟩, hn⟩ := hv
      refine ⟨_, rfl, ?_⟩
      simp only [disassemble]
      rw [sti_word_shr26 n (show (4:Nat) < 64 by norm_num) hs ht,
          sti_word_s n (show (4:Nat) < 64 by norm_num) hs ht,
          sti_word_t n (show (4:Nat) < 64 by norm_num) hs ht,
          sti_word_imm n (show (4:Nat) < 64 by norm_num) hs ht,
          Nat.mod_eq_of_lt hn]
      norm_num
  | Bne s t i =>
    cases i with
    | Label l => simp [fieldsValid] at hv
    | Literal n =>
      simp only [fieldsValid, Bool.and_eq_true, decide_eq_true_eq] at hv
      obtain ⟨⟨hs, ht⟩, hn⟩ := hv
      refine ⟨_, rfl, ?_⟩
      simp only [disassemble]
      rw [sti_word_shr26 n (show (5:Nat) < 64 by norm_num) hs ht,
          sti_word_s n (show (5:Nat) < 64 by norm_num) hs ht,
          sti_word_t n (show (5:Nat) < 64 by norm_num) hs ht,
          sti_word_imm n (show (5:Nat) < 64 by norm_num) hs ht,
          Nat.mod_eq_of_lt hn]
      norm_num
  | Jr s =>
    simp only [fieldsValid, decide_eq_true_eq] at hv
    have h0 : (0:Nat) < 32 := by norm_num
    have hop : (0:Nat) < 64 := by norm_num
    refine ⟨_, rfl, ?_⟩
    simp only [disassemble]
    rw [sti_word_shr26 8 hop hv h0,
        sti_word_s 8 hop hv h0,
        sti_word_and63 8 hop hv h0]
    norm_num
  | Jalr s =>
    simp only [fieldsValid, decide_eq_true_eq] at hv
    have h0 : (0:Nat) < 32 := by norm_num
    have hop : (0:Nat) < 64 := by norm_num
    refine ⟨_, rfl, ?_⟩
    simp only [disassemble]
    rw [sti_word_shr26 9 hop hv h0,
        sti_word_s 9 hop hv h0,
        sti_word_and63 9 hop hv h0]
    norm_num
  | Word i =>
    cases i with
    | Label l => simp [fieldsValid] at hv
    | Literal n =>
      simp only [wordOk, Bool.not_eq_true'] at hw
      have hw' : ¬ (recognizedB n = true) := by rw [hw]; simp
      simp only [recognizedB, Bool.or_eq_true, beq_iff_eq, Bool.and_eq_true, not_or] at hw'
      push_neg at hw'
      obtain ⟨⟨⟨⟨h35, h43⟩, h4⟩, h5⟩, hrest⟩ := hw'
      refine ⟨n, rfl, ?_⟩
      by_cases h0 : n >>> 26 = 0
      · have hsec := hrest h0
        obtain ⟨⟨⟨⟨⟨⟨⟨⟨⟨⟨⟨⟨k32, k34⟩, k24⟩, k25⟩, k26⟩, k27⟩, k16⟩, k18⟩, k20⟩,
          k42⟩, k43⟩, k8⟩, k9⟩ := hsec
        simp [disassemble, h0, h35, h43, h4, h5, k32, k34, k24, k25, k26, k27, k16,
          k18, k20, k42, k43, k8, k9]
      · simp [disassemble, h0, h35, h43, h4, h5]
  | Noop => exact absurd rfl hx

/-- C4 counterexample: the claim as stated includes `.word` with any `u32`
operand, but `.word 0x20` assembles to the word `0x20`, which decodes to
`add $0, $0, $0`, not back to `.word 0x20`. -/
theorem decode_encode_word_counterexample :
    assemble (.Word (.Literal 32)) = some 32 ∧
    disassemble 32 = .Add 0 0 0 ∧
    disassemble 32 ≠ .Word (.Literal 32) := by
  refine ⟨rfl, by decide, by decide⟩

/-- Witness for `decode_encode_roundtrip` at `add $3, $1, $2`. -/
theorem decode_encode_roundtrip_witness :
    ∃ w, assemble (.Add 3 1 2) = some w ∧ disassemble w = .Add 3 1 2 :=
  decode_encode_roundtrip (.Add 3 1 2) (by decide) (by decide) (by decide)

/-! Numeric token parsing.  `parseDigitsAcc` mirrors Rust's checked
accumulation in `from_str_radix`: each step multiplies by the radix, adds
the digit and fails on overflow of the target type (`max`). -/

def digitVal (c : Char) : Nat := c.toNat - '0'.toNat

def parseDigitsAcc (max acc : Nat) : List Char → Option Nat
  | [] => some acc
  | c :: rest =>
    if c.isDigit then
      (let v := acc * 10 + digitVal c
       if v ≤ max then parseDigitsAcc max v rest else none)
    else none

/-- Rust `str::parse` for an unsigned integer type with maximum `max`:
an optional leading `+`, then one or more decimal digits, overflow fatal.
A leading `-` is not accepted for unsigned types. -/
def parseUnsigned (max : Nat) (s : List Char) : Option Nat :=
  match s with
  | [] => none
  | '+' :: rest => if rest = [] then none else parseDigitsAcc max 0 rest
  | _ => parseDigitsAcc max 0 s

def parseU32Chars (s : List Char) : Option Nat := parseUnsigned 4294967295 s

def parseU8Chars (s : List Char) : Option Nat := parseUnsigned 255 s

/-- Rust `str::parse::<i32>`: optional sign, decimal digits, overflow
fatal (`-2^31 ≤ value ≤ 2^31 - 1`). -/
def parseI32Chars (s : List Char) : Option Int :=
  match s with
  | [] => none
  | '+' :: rest =>
    if rest = [] then none else (parseDigitsAcc 2147483647 0 rest).map Int.ofNat
  | '-' :: rest =>
    if rest = [] then none else (parseDigitsAcc 2147483648 0 rest).map (fun n => -(n : Int))
  | _ => (parseDigitsAcc 2147483647 0 s).map Int.ofNat

def isHexDigit (c : Char) : Bool :=
  c.isDigit || ('a' ≤ c && c ≤ 'f') || ('A' ≤ c && c ≤ 'F')

def hexVal (c : Char) : Nat :=
  if c.isDigit then c.toNat - '0'.toNat
  else if 'a' ≤ c && c ≤ 'f' then c.toNat - 'a'.toNat + 10
  else c.toNat - 'A'.toNat + 10

def parseHexAcc (acc : Nat) : List Char → Option Nat
  | [] => some acc
  | c :: rest =>
    if isHexDigit c then
      (let v := acc * 16 + hexVal c
       if v ≤ 4294967295 then parseHexAcc v rest else none)
    else none

/-- Rust `u32::from_str_radix(s, 16)`: optional leading `+`, then one or
more hex digits, overflow fatal. -/
def parseHexU32 (s : List Char) : Option Nat :=
  match s with
  | [] => none
  | '+' :: rest => if rest = [] then none else parseHexAcc 0 rest
  | _ => parseHexAcc 0 s

/-- `fn parse_value(value: &str, bits: u8) -> Value`.  Note the source
takes `&value[2..]` without checking that the first two characters are
`0x`; slicing a token shorter than two bytes panics (`none`). -/
def parse_value (value : List Char) (bits : Nat) : Option Value :=
  let mask := ((1 <<< bits) - 1) % 4294967296
  match parseU32Chars value with
  | some num => some (.Literal (num &&& mask))
  | none =>
    match parseI32Chars value with
    | some num => some (.Literal (Int.toNat (num.emod 4294967296) &&& mask))
    | none =>
      if value.length < 2 then none
      else
        match parseHexU32 (value.drop 2) with
        | some num => some (.Literal (num &&& mask))
        | none => some (.Label (String.mk value))

/-- C3 counterexample: `"zzff"` has no `0x` prefix and is not decimal, so
per the claim it must become a symbol reference; the code instead slices
off the first two characters unconditionally and parses `"ff"` as hex,
yielding `Literal 255`.  Also, the one-character token `"a"` makes the
slice `&value[2..]` panic, so parsing can fail. -/
theorem parse_value_counterexample :
    parse_value "zzff".toList 16 = some (.Literal 255) ∧
    parse_value "zzff".toList 16 ≠ some (.Label "zzff") ∧
    parse_value "a".toList 16 = none := by
  refine ⟨by decide, by decide, by decide⟩

/-- C3 (corrected): numeric parsing tries unsigned decimal, then signed
decimal (stored two's-complement), then hexadecimal of the token minus its
first two characters, whatever those characters are; a token of length at
least two matching none of the three forms is a symbol reference, and a
token shorter than two characters that is not decimal panics. -/
theorem parse_value_order (tok : List Char) (bits : Nat) :
    (∀ n, parseU32Chars tok = some n →
      parse_value tok bits = some (.Literal (n &&& (((1 <<< bits) - 1) % 4294967296)))) ∧
    (parseU32Chars tok = none → ∀ z, parseI32Chars tok = some z →
      parse_value tok bits =
        some (.Literal (Int.toNat (z.emod 4294967296) &&& (((1 <<< bits) - 1) % 4294967296)))) ∧
    (parseU32Chars tok = none → parseI32Chars tok = none → 2 ≤ tok.length →
      ∀ n, parseHexU32 (tok.drop 2) = some n →
      parse_value tok bits = some (.Literal (n &&& (((1 <<< bits) - 1) % 4294967296)))) ∧
    (parseU32Chars tok = none → parseI32Chars tok = none → 2 ≤ tok.length →
      parseHexU32 (tok.drop 2) = none →
      parse_value tok bits = some (.Label (String.mk tok))) ∧
    (parseU32Chars tok = none → parseI32Chars tok = none → tok.length < 2 →
      parse_value tok bits = none) := by
  refine ⟨?_, ?_, ?_, ?_, ?_⟩
  · intro n hn
    simp [parse_value, hn]
  · intro hu z hz
    simp [parse_value, hu, hz]
  · intro hu hi hlen n hn
    simp [parse_value, hu, hi, hn, Nat.not_lt.mpr hlen]
  · intro hu hi hlen hh
    simp [parse_value, hu, hi, hh, Nat.not_lt.mpr hlen]
  · intro hu hi hlen
    simp [parse_value, hu, hi, hlen]

/-- Witness for `parse_value_order`: the token `hello` matches none of the
three numeric forms and becomes a symbol reference. -/
theorem parse_value_order_witness :
    parse_value "hello".toList 16 = some (.Label "hello") :=
  (parse_value_order "hello".toList 16).2.2.2.1 (by decide) (by decide) (by decide) (by decide)

/-! The instruction parser (`fn parse_instruction`).  The source splits on
any of space, comma and parentheses, trims each piece and drops empties;
register operands are `tokens[k][1..].parse::<u8>().unwrap()`, a panic
(`none`) on out-of-range or malformed input. -/

def isDelim (c : Char) : Bool := c = ' ' || c = ',' || c = '(' || c = ')'

def splitDelims : List Char → List (List Char)
  | [] => [[]]
  | c :: rest =>
    if isDelim c then [] :: splitDelims rest
    else
      match splitDelims rest with
      | [] => [[c]]
      | t :: ts => (c :: t) :: ts

def trimChars (s : List Char) : List Char :=
  ((s.dropWhile Char.isWhitespace).reverse.dropWhile Char.isWhitespace).reverse

def tokenize (s : List Char) : List (List Char) :=
  ((splitDelims s).map trimChars).filter (fun t => !t.isEmpty)

/-- Register-operand parsing, `tokens[k][1..].parse::<u8>()`: drop the
leading `$` (byte slice from index 1) and parse the rest as `u8`. -/
def parseReg (tok : List Char) : Option Nat := parseU8Chars (tok.drop 1)

def parse_instruction (instruction : List Char) : Option Instruction :=
  let tokens := tokenize instruction
  match tokens.head? with
  | none => some .Noop
  | some first =>
    if first = "add".toList then do
      let t1 ← tokens.get? 1
      let t2 ← tokens.get? 2
      let t3 ← tokens.get? 3
      let d ← parseReg t1
      let s ← parseReg t2
      let t ← parseReg t3
      some (.Add d s t)
    else if first = "sub".toList then do
      let t1 ← tokens.get? 1
      let t2 ← tokens.get? 2
      let t3 ← tokens.get? 3
      let d ← parseReg t1
      let s ← parseReg t2
      let t ← parseReg t3
      some (.Sub d s t)
    else if first = "slt".toList then do
      let t1 ← tokens.get? 1
      let t2 ← tokens.get? 2
      let t3 ← tokens.get? 3
      let d ← parseReg t1
      let s ← parseReg t2
      let t ← parseReg t3
      some (.Slt d s t)
    else if first = "sltu".toList then do
      let t1 ← tokens.get? 1
      let t2 ← tokens.get? 2
      let t3 ← tokens.get? 3
      let d ← parseReg t1
      let s ← parseReg t2
      let t ← parseReg t3
      some (.Sltu d s t)
    else if first = "mult".toList then do
      let t1 ← tokens.get? 1
      let t2 ← tokens.get? 2
      let s ← parseReg t1
      let t ← parseReg t2
      some (.Mult s t)
    else if first = "multu".toList then do
      let t1 ← tokens.get? 1
      let t2 ← tokens.get? 2
      let s ← parseReg t1
      let t ← parseReg t2
      some (.Multu s t)
    else if first = "div".toList then do
      let t1 ← tokens.get? 1
      let t2 ← tokens.get? 2
      let s ← parseReg t1
      let t ← parseReg t2
      some (.Div s t)
    else if first = "divu".toList then do
      let t1 ← tokens.get? 1
      let t2 ← tokens.get? 2
      let s ← parseReg t1
      let t ← parseReg t2
      some (.Divu s t)
    else if first = "mfhi".toList then do
      let t1 ← tokens.get? 1
      let d ← parseReg t1
      some (.Mfhi d)
    else if first = "mflo".toList then do
      let t1 ← tokens.get? 1
      let d ← parseReg t1
      some (.Mflo d)
    else if first = "lis".toList then do
      let t1 ← tokens.get? 1
      let d ← parseReg t1
      some (.Lis d)
    else if first = "lw".toList then do
      let t1 ← tokens.get? 1
      let t2 ← tokens.get? 2
      let t3 ← tokens.get? 3
      let t ← parseReg t1
      let i ← parse_value t2 16
      let s ← parseReg t3
      some (.Lw t i s)
    else if first = "sw".toList then do
      let t1 ← tokens.get? 1
      let t2 ← tokens.get? 2
      let t3 ← tokens.get? 3
      let t ← parseReg t1
      let i ← parse_value t2 16
      let s ← parseReg t3
      some (.Sw t i s)
    else if first = "beq".toList then do
      let t1 ← tokens.get? 1
      let t2 ← tokens.get? 2
      let t3 ← tokens.get? 3
      let s ← parseReg t1
      let t ← parseReg t2
      let i ← parse_value t3 16
      some (.Beq s t i)
    else if first = "bne".toList then do
      let t1 ← tokens.get? 1
      let t2 ← tokens.get? 2
      let t3 ← tokens.get? 3
      let s ← parseReg t1
      let t ← parseReg t2
      let i ← parse_value t3 16
      some (.Bne s t i)
    else if first = "jr".toList then do
      let t1 ← tokens.get? 1
      let s ← parseReg t1
      some (.Jr s)
    else if first = "jalr".toList then do
      let t1 ← tokens.get? 1
      let s ← parseReg t1
      some (.Jalr s)
    else if first = ".word".toList then do
      let t1 ← tokens.get? 1
      let i ← parse_value t1 32
      some (.Word i)
    else none

theorem splitDelims_ne_nil (s : List Char) : splitDelims s ≠ [] := by
  cases s with
  | nil => simp [splitDelims]
  | cons c rest =>
    simp only [splitDelims]
    split
    · simp
    · split
      · simp
      · simp

theorem splitDelims_nodelim_append (ds rest : List Char)
    (h : ∀ c ∈ ds, isDelim c = false) :
    ∃ t ts, splitDelims rest = t :: ts ∧ splitDelims (ds ++ rest) = (ds ++ t) :: ts := by
  induction ds with
  | nil =>
    cases hrest : splitDelims rest with
    | nil => exact absurd hrest (splitDelims_ne_nil rest)
    | cons t ts => exact ⟨t, ts, rfl, by simp [hrest]⟩
  | cons c ds ih =>
    have hc : isDelim c = false := h c (by simp)
    obtain ⟨t, ts, h1, h2⟩ := ih (fun c hc => h c (by simp [hc]))
    refine ⟨t, ts, h1, ?_⟩
    simp only [List.cons_append, splitDelims, hc, List.append_eq]
    rw [h2]
    simp

theorem trimChars_nows (s : List Char) (h : ∀ c ∈ s, c.isWhitespace = false) :
    trimChars s = s := by
  unfold trimChars
  have h1 : s.dropWhile Char.isWhitespace = s := by
    cases s with
    | nil => rfl
    | cons c cs => rw [List.dropWhile_cons, h c (by simp)]; simp
  rw [h1]
  have h2 : s.reverse.dropWhile Char.isWhitespace = s.reverse := by
    cases hs : s.reverse with
    | nil => rfl
    | cons c cs =>
      rw [List.dropWhile_cons, h c ?_]
      · simp
      · have : c ∈ s.reverse := by rw [hs]; simp
        simpa using this
  rw [h2, List.reverse_reverse]

/-- Test-harness line constructor: an `add` line whose first register
operand has the character list `ds` after the `$`. -/
def addLine (ds : List Char) : List Char :=
  "add $".toList ++ ds ++ ", $1, $2".toList

theorem tokenize_add_line (ds : List Char)
    (hds : ∀ c ∈ ds, isDelim c = false ∧ c.isWhitespace = false) :
    tokenize (addLine ds) =
      ["add".toList, '$' :: ds, "$1".toList, "$2".toList] := by
  rw [addLine]
  have hndelim : ∀ c ∈ ('$' :: ds), isDelim c = false := by
    intro c hc
    rcases List.mem_cons.mp hc with h | h
    · rw [h]; decide
    · exact (hds c h).1
  obtain ⟨t, ts, h1, h2⟩ :=
    splitDelims_nodelim_append ('$' :: ds) ", $1, $2".toList hndelim
  have hrest : splitDelims ", $1, $2".toList =
      [] :: [[], "$1".toList, [], "$2".toList] := by decide
  rw [hrest] at h1
  obtain ⟨ht, hts⟩ := List.cons.inj h1.symm
  subst ht
  subst hts
  have hsp : ∀ y, splitDelims (' ' :: y) = [] :: splitDelims y := by
    intro y
    simp [splitDelims, isDelim]
  obtain ⟨t2, ts2, h3, h4⟩ :=
    splitDelims_nodelim_append "add".toList
      (' ' :: ('$' :: ds ++ ", $1, $2".toList)) (by decide)
  rw [hsp, h2] at h3
  obtain ⟨ht2, hts2⟩ := List.cons.inj h3.symm
  subst ht2
  subst hts2
  have hline : ("add $".toList ++ ds ++ ", $1, $2".toList) =
      "add".toList ++ (' ' :: ('$' :: ds ++ ", $1, $2".toList)) := by simp
  rw [tokenize, hline, h4]
  have htrim : trimChars ('$' :: ds) = '$' :: ds := by
    apply trimChars_nows
    intro c hc
    rcases List.mem_cons.mp hc with h | h
    · rw [h]; decide
    · exact (hds c h).2
  have h5 : trimChars "add".toList = "add".toList := by decide
  have h6 : trimChars ([] : List Char) = [] := by decide
  have h7 : trimChars "$1".toList = "$1".toList := by decide
  have h8 : trimChars "$2".toList = "$2".toList := by decide
  simp only [List.append_nil, List.map, h5, h6, h7, h8, htrim]
  simp [List.filter]

/-- C5 counterexample: the line `add $40, $1, $2` contains the register
token `$40`, whose index 40 is outside 0..31, yet parsing succeeds and
produces an instruction — `tokens[k][1..].parse::<u8>()` accepts any value
up to 255 and the index is never range-checked against 31. -/
theorem parse_instruction_reg40_counterexample :
    parse_instruction "add $40, $1, $2".toList = some (.Add 40 1 2) ∧
    parse_instruction "add $40, $1, $2".toList ≠ none := by
  exact ⟨by decide, by decide⟩

/-- C5 (corrected): for a register operand `$ds` in an `add` line, parsing
is fatal exactly when `ds` fails to parse as a `u8` (malformed or greater
than 255); every index 0..255 — not 0..31 — is accepted and yields an
instruction. -/
theorem parse_instruction_register_range (ds : List Char)
    (hds : ∀ c ∈ ds, isDelim c = false ∧ c.isWhitespace = false) :
    (∀ n, parseU8Chars ds = some n →
      parse_instruction (addLine ds) = some (.Add n 1 2)) ∧
    (parseU8Chars ds = none →
      parse_instruction (addLine ds) = none) := by
  have htok := tokenize_add_line ds hds
  have h1 : parseU8Chars ['1'] = some 1 := by decide
  have h2 : parseU8Chars ['2'] = some 2 := by decide
  constructor
  · intro n hn
    simp [parse_instruction, htok, parseReg, hn, h1, h2]
  · intro hn
    simp [parse_instruction, htok, parseReg, hn, h1, h2]

/-- Witness for `parse_instruction_register_range`: register index 300
does not fit in a `u8`, so the line is fatal. -/
theorem parse_instruction_register_range_witness :
    parse_instruction (addLine "300".toList) = none :=
  (parse_instruction_register_range "300".toList (by decide)).2 (by decide)

/-! The symbol resolver (`fn replace_labels`).  The label map is modelled
as a function `String → Option Nat` (the `HashMap<&str, u32>`); `u32`
casts and the wrapping `i32` subtraction of the source are made explicit
over `Int`. -/

/-- A source line: `struct Line { text, labels, instruction }`. -/
structure Line where
  text : String
  labels : List String
  instruction : Instruction
deriving DecidableEq

/-- Rust `u32 as i32` (two's-complement reinterpretation). -/
def toI32 (n : Nat) : Int :=
  if n % 4294967296 < 2147483648 then ((n % 4294967296 : Nat) : Int)
  else ((n % 4294967296 : Nat) : Int) - 4294967296

/-- Wrapping of an `i32` arithmetic result (release-mode overflow). -/
def wrapI32 (z : Int) : Int := (z + 2147483648) % 4294967296 - 2147483648

/-- Rust `i32 as u32` (two's-complement reinterpretation). -/
def toU32 (z : Int) : Nat := (z % 4294967296).toNat

/-- The branch-offset computation of `replace_labels`:
`((label_value as i32 - addr as i32) / 4) as u32 & 0xFFFF`, where `/` is
Rust's truncating `i32` division. -/
def branchOffset (label_value addr : Nat) : Nat :=
  toU32 ((wrapI32 (toI32 label_value - toI32 addr)).tdiv 4) &&& 0xFFFF

/-- The per-line `match` of `replace_labels`: substitute label operands,
`none` on an undefined label (the `panic!`). -/
def resolveInstruction (labels : String → Option Nat) (addr : Nat) :
    Instruction → Option Instruction
  | .Lw t (.Label label) s => (labels label).map (fun v => .Lw t (.Literal v) s)
  | .Sw t (.Label label) s => (labels label).map (fun v => .Sw t (.Literal v) s)
  | .Beq s t (.Label label) =>
      (labels label).map (fun v => .Beq s t (.Literal (branchOffset v addr)))
  | .Bne s t (.Label label) =>
      (labels label).map (fun v => .Bne s t (.Literal (branchOffset v addr)))
  | .Word (.Label label) => (labels label).map (fun v => .Word (.Literal v))
  | other => some other

/-- The loop of `fn replace_labels`: `addr += 4` first for non-noop lines,
then resolve, then push unless the result is a noop. -/
def replaceLabelsAux (labels : String → Option Nat) (addr : Nat) :
    List Line → Option (List Line)
  | [] => some []
  | line :: rest =>
    let addr := if line.instruction ≠ .Noop then (addr + 4) % 4294967296 else addr
    do
      let newInstruction ← resolveInstruction labels addr line.instruction
      let restResult ← replaceLabelsAux labels addr rest
      if newInstruction ≠ .Noop then
        pure ({ text := line.text, labels := [], instruction := newInstruction } :: restResult)
      else
        pure restResult

def replace_labels (lines : List Line) (labels : String → Option Nat) :
    Option (List Line) :=
  replaceLabelsAux labels 0 lines

/-- Number of non-noop lines: each contributes one word to the image. -/
def nnCount (lines : List Line) : Nat :=
  (lines.filter (fun l => decide (l.instruction ≠ .Noop))).length

theorem nnCount_nil : nnCount [] = 0 := rfl

theorem nnCount_cons (line : Line) (ls : List Line) :
    nnCount (line :: ls) =
      (if line.instruction ≠ .Noop then 1 else 0) + nnCount ls := by
  by_cases h : line.instruction = .Noop
  · simp [nnCount, List.filter, h]
  · simp [nnCount, List.filter, h]
    omega

theorem resolveInstruction_ne_noop {labels : String → Option Nat} {addr : Nat}
    {instr ni : Instruction} (h : resolveInstruction labels addr instr = some ni)
    (hne : instr ≠ .Noop) : ni ≠ .Noop := by
  cases instr with
  | Lw t i s =>
    cases i with
    | Label l =>
      cases hl : labels l with
      | none => simp [resolveInstruction, hl] at h
      | some v => simp [resolveInstruction, hl] at h; simp [← h]
    | Literal v => simp [resolveInstruction] at h; simp [← h]
  | Sw t i s =>
    cases i with
    | Label l =>
      cases hl : labels l with
      | none => simp [resolveInstruction, hl] at h
      | some v => simp [resolveInstruction, hl] at h; simp [← h]
    | Literal v => simp [resolveInstruction] at h; simp [← h]
  | Beq s t i =>
    cases i with
    | Label l =>
      cases hl : labels l with
      | none => simp [resolveInstruction, hl] at h
      | some v => simp [resolveInstruction, hl] at h; simp [← h]
    | Literal v => simp [resolveInstruction] at h; simp [← h]
  | Bne s t i =>
    cases i with
    | Label l =>
      cases hl : labels l with
      | none => simp [resolveInstruction, hl] at h
      | some v => simp [resolveInstruction, hl] at h; simp [← h]
    | Literal v => simp [resolveInstruction] at h; simp [← h]
  | Word i =>
    cases i with
    | Label l =>
      cases hl : labels l with
      | none => simp [resolveInstruction, hl] at h
      | some v => simp [resolveInstruction, hl] at h; simp [← h]
    | Literal v => simp [resolveInstruction] at h; simp [← h]
  | Noop => exact absurd rfl hne
  | Add d s t => simp [resolveInstruction] at h; simp [← h]
  | Sub d s t => simp [resolveInstruction] at h; simp [← h]
  | Slt d s t => simp [resolveInstruction] at h; simp [← h]
  | Sltu d s t => simp [resolveInstruction] at h; simp [← h]
  | Mult s t => simp [resolveInstruction] at h; simp [← h]
  | Multu s t => simp [resolveInstruction] at h; simp [← h]
  | Div s t => simp [resolveInstruction] at h; simp [← h]
  | Divu s t => simp [resolveInstruction] at h; simp [← h]
  | Mfhi d => simp [resolveInstruction] at h; simp [← h]
  | Mflo d => simp [resolveInstruction] at h; simp [← h]
  | Lis d => simp [resolveInstruction] at h; simp [← h]
  | Jr s => simp [resolveInstruction] at h; simp [← h]
  | Jalr s => simp [resolveInstruction] at h; simp [← h]

/-- A `beq`/`bne` selected by a flag, used to state the branch-offset law
once for both opcodes. -/
def mkBranch (bne : Bool) (s t : Nat) (i : Value) : Instruction :=
  if bne then .Bne s t i else .Beq s t i

theorem mkBranch_ne_noop (bne : Bool) (s t : Nat) (i : Value) :
    mkBranch bne s t i ≠ .Noop := by
  cases bne <;> simp [mkBranch]

theorem resolveInstruction_mkBranch (labels : String → Option Nat) (addr : Nat)
    (bne : Bool) (s t : Nat) (L : String) :
    resolveInstruction labels addr (mkBranch bne s t (.Label L)) =
      (labels L).map (fun v => mkBranch bne s t (.Literal (branchOffset v addr))) := by
  cases bne <;> rfl

theorem replaceLabelsAux_branch (labels : String → Option Nat) (lines : List Line)
    (a0 : Nat) (out : List Line) (k : Nat) (b : Bool) (s t : Nat) (L : String) (A : Nat)
    (hk : k < lines.length)
    (hbr : (lines.get ⟨k, hk⟩).instruction = mkBranch b s t (.Label L))
    (hL : labels L = some A)
    (hout : replaceLabelsAux labels a0 lines = some out) :
    ∃ hj : nnCount (lines.take k) < out.length,
      (out.get ⟨nnCount (lines.take k), hj⟩).instruction =
        mkBranch b s t
          (.Literal (branchOffset A ((a0 + 4 * nnCount (lines.take k) + 4) % 4294967296))) := by
  induction lines generalizing a0 out k with
  | nil => simp at hk
  | cons line rest ih =>
    simp only [replaceLabelsAux] at hout
    cases k with
    | zero =>
      have hbr0 : line.instruction = mkBranch b s t (.Label L) := hbr
      have hne : line.instruction ≠ .Noop := by
        rw [hbr0]; exact mkBranch_ne_noop b s t _
      rw [if_pos hne, hbr0, resolveInstruction_mkBranch, hL] at hout
      simp only [Option.map_some', Option.pure_def, Option.bind_eq_bind, Option.some_bind] at hout
      cases hrest : replaceLabelsAux labels ((a0 + 4) % 4294967296) rest with
      | none => rw [hrest] at hout; simp at hout
      | some restOut =>
        rw [hrest] at hout
        simp only [Option.pure_def, Option.bind_eq_bind, Option.some_bind, if_pos (mkBranch_ne_noop b s t _),
          Option.some.injEq] at hout
        subst hout
        refine ⟨by simp [nnCount_nil], ?_⟩
        simp [nnCount_nil]
    | succ k' =>
      have hbr' : (rest.get ⟨k', Nat.lt_of_succ_lt_succ hk⟩).instruction =
          mkBranch b s t (.Label L) := by
        rw [← hbr]
        rfl
      by_cases hni : line.instruction = .Noop
      · rw [if_neg (by simp [hni]), hni] at hout
        simp only [resolveInstruction, Option.pure_def, Option.bind_eq_bind, Option.some_bind] at hout
        cases hrest : replaceLabelsAux labels a0 rest with
        | none => rw [hrest] at hout; simp at hout
        | some restOut =>
          rw [hrest] at hout
          simp only [Option.pure_def, Option.bind_eq_bind, Option.some_bind, ne_eq, not_true_eq_false, if_false,
            Option.pure_def, Option.some.injEq] at hout
          subst hout
          obtain ⟨hj, hins⟩ := ih a0 restOut k' (Nat.lt_of_succ_lt_succ hk) hbr' hrest
          have hcnt : nnCount ((line :: rest).take (k' + 1)) = nnCount (rest.take k') := by
            rw [List.take_succ_cons, nnCount_cons]
            simp [hni]
          refine ⟨by rw [hcnt]; exact hj, ?_⟩
          have heq : (restOut.get ⟨nnCount ((line :: rest).take (k' + 1)),
              by rw [hcnt]; exact hj⟩) =
              (restOut.get ⟨nnCount (rest.take k'), hj⟩) := by
            congr 1
            exact Fin.ext hcnt
          rw [heq, hins, hcnt]
      · rw [if_pos hni] at hout
        cases hres : resolveInstruction labels ((a0 + 4) % 4294967296) line.instruction with
        | none => rw [hres] at hout; simp at hout
        | some ni =>
          rw [hres] at hout
          have hnine : ni ≠ .Noop := resolveInstruction_ne_noop hres hni
          cases hrest : replaceLabelsAux labels ((a0 + 4) % 4294967296) rest with
          | none => rw [hrest] at hout; simp at hout
          | some restOut =>
            rw [hrest] at hout
            simp only [Option.pure_def, Option.bind_eq_bind, Option.some_bind, if_pos hnine,
              Option.some.injEq] at hout
            subst hout
            obtain ⟨hj, hins⟩ :=
              ih ((a0 + 4) % 4294967296) restOut k' (Nat.lt_of_succ_lt_succ hk) hbr' hrest
            have hcnt : nnCount ((line :: rest).take (k' + 1)) =
                nnCount (rest.take k') + 1 := by
              rw [List.take_succ_cons, nnCount_cons]
              simp [hni]
              omega
            have hj2 : nnCount ((line :: rest).take (k' + 1)) <
                ({ text := line.text, labels := [], instruction := ni } :: restOut).length := by
              rw [hcnt]
              simp
              omega
            refine ⟨hj2, ?_⟩
            have hget : (({ text := line.text, labels := [], instruction := ni } :
                Line) :: restOut).get ⟨nnCount ((line :: rest).take (k' + 1)), hj2⟩ =
                restOut.get ⟨nnCount (rest.take k'), hj⟩ := by
              have : (⟨nnCount ((line :: rest).take (k' + 1)), hj2⟩ :
                  Fin (restOut.length + 1)) =
                  ⟨nnCount (rest.take k') + 1, by omega⟩ := Fin.ext hcnt
              rw [this]
              rfl
            rw [hget, hins]
            have harith : ((a0 + 4) % 4294967296 + 4 * nnCount (rest.take k') + 4) %
                4294967296 =
                (a0 + 4 * nnCount ((line :: rest).take (k' + 1)) + 4) % 4294967296 := by
              rw [hcnt]
              omega
            rw [harith]

theorem branchOffset_eq (A addr : Nat) (hA : A < 4294967296) (haddr : addr < 4294967296)
    (h4A : 4 ∣ A) (h4addr : 4 ∣ addr) :
    branchOffset A addr = Int.toNat (((((A : Int) - (addr : Int)) / 4) % 65536)) := by
  obtain ⟨a, rfl⟩ := h4A
  obtain ⟨b, rfl⟩ := h4addr
  unfold branchOffset toU32 wrapI32 toI32
  rw [and_mask16]
  rw [Nat.mod_eq_of_lt hA, Nat.mod_eq_of_lt haddr]
  split_ifs with h1 h2 h2
  all_goals rw [Int.tdiv_eq_ediv_of_dvd (by push_cast; omega)]
  all_goals push_cast
  all_goals omega

/-- C6 (confirmed): if line `k` of the program is a `beq`/`bne` on label
`L`, `L` resolves to byte address `A`, and the branch sits at byte address
`B = 4 * (number of non-noop lines before it)`, then the resolved literal
immediate equals `((A - (B + 4)) / 4) mod 2^16`. -/
theorem branch_offset_law (lines : List Line) (labels : String → Option Nat)
    (out : List Line) (k : Nat) (b : Bool) (s t : Nat) (L : String) (A : Nat)
    (hk : k < lines.length)
    (hbr : (lines.get ⟨k, hk⟩).instruction = mkBranch b s t (.Label L))
    (hL : labels L = some A) (hA : A < 4294967296) (h4A : 4 ∣ A)
    (hB : 4 * nnCount (lines.take k) + 4 < 4294967296)
    (hout : replace_labels lines labels = some out) :
    ∃ hj : nnCount (lines.take k) < out.length,
      (out.get ⟨nnCount (lines.take k), hj⟩).instruction =
        mkBranch b s t (.Literal (Int.toNat
          ((((A : Int) - (4 * nnCount (lines.take k) + 4)) / 4) % 65536))) := by
  obtain ⟨hj, hins⟩ :=
    replaceLabelsAux_branch labels lines 0 out k b s t L A hk hbr hL hout
  refine ⟨hj, ?_⟩
  rw [hins]
  have h1 : (0 + 4 * nnCount (lines.take k) + 4) % 4294967296 =
      4 * nnCount (lines.take k) + 4 := by omega
  rw [h1, branchOffset_eq A (4 * nnCount (lines.take k) + 4) hA hB h4A
    ⟨nnCount (lines.take k) + 1, by ring⟩]
  push_cast
  rfl

/-- Witness for `branch_offset_law`: a one-line program `beq $0, $0, x`
with `x` bound to byte address 0; the branch is at byte address 0 and the
encoded immediate is `((0 - 4) / 4) mod 2^16 = 0xFFFF`. -/
theorem branch_offset_law_witness :
    ∃ hj : nnCount (([⟨"", [], .Beq 0 0 (.Label "x")⟩] : List Line).take 0) <
        [(⟨"", [], .Beq 0 0 (.Literal 65535)⟩ : Line)].length,
      (([(⟨"", [], .Beq 0 0 (.Literal 65535)⟩ : Line)]).get
          ⟨nnCount (([⟨"", [], .Beq 0 0 (.Label "x")⟩] : List Line).take 0), hj⟩).instruction =
        mkBranch false 0 0 (.Literal (Int.toNat
          ((((0 : Int) -
              (4 * nnCount (([⟨"", [], .Beq 0 0 (.Label "x")⟩] : List Line).take 0) + 4)) /
              4) % 65536))) :=
  branch_offset_law [⟨"", [], .Beq 0 0 (.Label "x")⟩]
    (fun s => if s = "x" then some 0 else none)
    [⟨"", [], .Beq 0 0 (.Literal 65535)⟩] 0 false 0 0 "x" 0
    (by decide) (by decide) (by decide) (by decide) (by decide) (by decide) (by decide)

/-! The emulator (`struct MipsEmulator`).  The `HashMap<u32, u32>` memory
is a function `Nat → Option Nat` keyed by word address; the register file
is `Fin 32 → Nat`; standard input and output are byte lists in the state.
Panics (array out of bounds, uninitialized memory, division by zero,
unknown instruction) are `Except` errors with distinct tags. -/

/-- Rust `(i as i16) as i32`: sign extension of the low 16 bits. -/
def toI16 (n : Nat) : Int :=
  if n % 65536 < 32768 then ((n % 65536 : Nat) : Int)
  else ((n % 65536 : Nat) : Int) - 65536

/-- Wrapping of an `i64` arithmetic result (release-mode overflow). -/
def wrapI64 (z : Int) : Int :=
  (z + 9223372036854775808) % 18446744073709551616 - 9223372036854775808

/-- Rust `i64 as u64` (two's-complement reinterpretation). -/
def toU64 (z : Int) : Nat := (z % 18446744073709551616).toNat

inductive EmuError where
  | regOutOfBounds
  | uninitMemory
  | divByZero
  | divOverflow
  | unknownInstruction
deriving DecidableEq

structure MipsState where
  memory : Nat → Option Nat
  registers : Fin 32 → Nat
  lo : Nat
  hi : Nat
  pc : Nat
  stdin : List Nat
  stdout : List Nat

/-- `self.registers[n as usize]`: a read outside the 32-entry array is an
index-out-of-bounds panic. -/
def regGet (st : MipsState) (n : Nat) : Except EmuError Nat :=
  if h : n < 32 then .ok (st.registers ⟨n, h⟩) else .error .regOutOfBounds

/-- `self.registers[n as usize] = v`, with the same bounds panic. -/
def regSet (regs : Fin 32 → Nat) (n v : Nat) : Except EmuError (Fin 32 → Nat) :=
  if h : n < 32 then .ok (fun j => if j = ⟨n, h⟩ then v else regs j)
  else .error .regOutOfBounds

/-- `MipsEmulator::read`.  At exactly `0xFFFF_0004` the code calls
`io::stdin().take(1).read(&mut buffer).unwrap_or(0xFF)` and returns that
value: `read` yields the NUMBER OF BYTES READ (1, or 0 at end of input),
not the byte itself; the `Err` branch of `unwrap_or` is unreachable in
this deterministic model of stdin as a byte list.  Every other address is
served from the word map at key `addr / 4`, fatal if absent. -/
def MipsState.read (st : MipsState) (addr : Nat) : Except EmuError (Nat × MipsState) :=
  if addr = 0xffff0004 then
    match st.stdin with
    | [] => .ok (0, st)
    | _ :: rest => .ok (1, { st with stdin := rest })
  else
    match st.memory (addr / 4) with
    | some word => .ok (word, st)
    | none => .error .uninitMemory

/-- `MipsEmulator::write`: at exactly `0xFFFF_000C` emit the low byte to
stdout; otherwise store to the word map at key `addr / 4`. -/
def MipsState.write (st : MipsState) (addr val : Nat) : MipsState :=
  if addr = 0xffff000c then { st with stdout := st.stdout ++ [val &&& 255] }
  else { st with memory := fun k => if k = addr / 4 then some val else st.memory k }

/-- The execute phase of `MipsEmulator::step` (the `match instruction`
block), run after the fetch and the `pc += 4`. -/
def exec (st : MipsState) (instruction : Instruction) :
    Except EmuError (Bool × MipsState) :=
  match instruction with
  | .Add d s t => do
      let a ← regGet st s
      let b ← regGet st t
      let r ← regSet st.registers d ((a + b) % 4294967296)
      .ok (true, { st with registers := r })
  | .Sub d s t => do
      let a ← regGet st s
      let b ← regGet st t
      let r ← regSet st.registers d (toU32 ((a : Int) - (b : Int)))
      .ok (true, { st with registers := r })
  | .Slt d s t => do
      let a ← regGet st s
      let b ← regGet st t
      let r ← regSet st.registers d (if toI32 a < toI32 b then 1 else 0)
      .ok (true, { st with registers := r })
  | .Sltu d s t => do
      let a ← regGet st s
      let b ← regGet st t
      let r ← regSet st.registers d (if a ≤ b then 1 else 0)
      .ok (true, { st with registers := r })
  | .Mult s t => do
      let a ← regGet st s
      let b ← regGet st t
      let product := toU64 (wrapI64 ((a : Int) * (b : Int)))
      .ok (true, { st with hi := product >>> 32, lo := product &&& 0xFFFFFFFF })
  | .Multu s t => do
      let a ← regGet st s
      let b ← regGet st t
      let product := a * b
      .ok (true, { st with hi := product >>> 32, lo := product &&& 0xFFFFFFFF })
  | .Div s t => do
      let a ← regGet st s
      let b ← regGet st t
      let si := toI32 a
      let ti := toI32 b
      if ti = 0 then .error .divByZero
      else if si = -2147483648 ∧ ti = -1 then .error .divOverflow
      else .ok (true, { st with lo := toU32 (si.tdiv ti), hi := toU32 (si.tmod ti) })
  | .Divu s t => do
      let a ← regGet st s
      let b ← regGet st t
      if b = 0 then .error .divByZero
      else .ok (true, { st with lo := a / b, hi := a % b })
  | .Mfhi d => do
      let r ← regSet st.registers d st.hi
      .ok (true, { st with registers := r })
  | .Mflo d => do
      let r ← regSet st.registers d st.lo
      .ok (true, { st with registers := r })
  | .Lis d => do
      let v ← st.read st.pc
      let r ← regSet v.2.registers d v.1
      .ok (true, { v.2 with registers := r, pc := (v.2.pc + 4) % 4294967296 })
  | .Lw t i s =>
      match i with
      | .Literal iv => do
          let base ← regGet st s
          let addr := toU32 (toI32 base + toI16 iv)
          let v ← st.read addr
          let r ← regSet v.2.registers t v.1
          .ok (true, { v.2 with registers := r })
      | .Label _ => .error .unknownInstruction
  | .Sw t i s =>
      match i with
      | .Literal iv => do
          let base ← regGet st s
          let addr := toU32 (toI32 base + toI16 iv)
          let v ← regGet st t
          .ok (true, st.write addr v)
      | .Label _ => .error .unknownInstruction
  | .Beq s t i =>
      match i with
      | .Literal iv =>
          if s = t then .ok (true, { st with pc := toU32 ((st.pc : Int) + 4 * toI16 iv) })
          else do
            let a ← regGet st s
            let b ← regGet st t
            if a = b then .ok (true, { st with pc := toU32 ((st.pc : Int) + 4 * toI16 iv) })
            else .ok (true, st)
      | .Label _ => .error .unknownInstruction
  | .Bne s t i =>
      match i with
      | .Literal iv =>
          if s = t then .ok (true, st)
          else do
            let a ← regGet st s
            let b ← regGet st t
            if a ≠ b then .ok (true, { st with pc := toU32 ((st.pc : Int) + 4 * toI16 iv) })
            else .ok (true, st)
      | .Label _ => .error .unknownInstruction
  | .Jr s => do
      let a ← regGet st s
      .ok (true, { st with pc := a })
  | .Jalr s => do
      let temp ← regGet st s
      let r ← regSet st.registers 31 st.pc
      .ok (true, { st with registers := r, pc := temp })
  | .Word _ => .error .unknownInstruction
  | .Noop => .error .unknownInstruction

/-- `MipsEmulator::step`: stop at the sentinel, otherwise fetch through
the memory interface, decode, advance `pc` by 4, execute. -/
def step (st : MipsState) : Except EmuError (Bool × MipsState) :=
  if st.pc = 0x8123456c then .ok (false, st)
  else do
    let w ← st.read st.pc
    let instruction := disassemble w.1
    exec { w.2 with pc := (w.2.pc + 4) % 4294967296 } instruction

/-- `MipsEmulator::new`: load the program at word addresses `0..`, zero
the registers except `r30` (stack base) and `r31` (sentinel return). -/
def MipsEmulator_new (program : List Nat) (input : List Nat) : MipsState :=
  { memory := fun k => program.get? k
  , registers := fun i => if i.val = 30 then 0x100000
      else if i.val = 31 then 0x8123456c else 0
  , lo := 0, hi := 0, pc := 0, stdin := input, stdout := [] }

/-- Modelled from the spec: the MMIO read at `0xFFFF_0004` should return
the consumed byte zero-extended to 32 bits, or `0x000000FF` when standard
input is exhausted or errors. -/
def mmioReadSpec : List Nat → Nat
  | [] => 0xFF
  | b :: _ => b

/-- C1 (code_bug): `handle.read(&mut buffer).unwrap_or(0xFF)` returns the
NUMBER OF BYTES READ, not the byte in `buffer`: with the single byte 0x41
available the read at `0xFFFF_0004` yields 1 (not 0x41), and at end of
input `read` returns `Ok(0)` so the result is 0 (not 0xFF). -/
theorem mmio_read_returns_count :
    (MipsEmulator_new [] [0x41]).read 0xffff0004 =
      .ok (1, MipsEmulator_new [] []) ∧
    (MipsEmulator_new [] []).read 0xffff0004 =
      .ok (0, MipsEmulator_new [] []) ∧
    mmioReadSpec [0x41] = 0x41 ∧
    mmioReadSpec [] = 0xFF ∧
    (1 : Nat) ≠ 0x41 ∧ (0 : Nat) ≠ 0xFF := by
  refine ⟨rfl, rfl, rfl, rfl, by decide, by decide⟩

/-- Modelled from the spec: `mult` should set HI to the high 32 bits of
the 64-bit signed product of the operands read as two's-complement 32-bit
integers. -/
def multSpecHi (a b : Nat) : Nat := toU64 (wrapI64 (toI32 a * toI32 b)) >>> 32

/-- A state with `r1 = 0xFFFFFFFF` (−1 as an `i32`) and `r2 = 1`. -/
def multTestState : MipsState :=
  { memory := fun _ => none
  , registers := fun i => if i.val = 1 then 4294967295 else if i.val = 2 then 1 else 0
  , lo := 0, hi := 0, pc := 4, stdin := [], stdout := [] }

/-- C2 (code_bug): `(self.registers[s] as i64)` zero-extends a `u32`, so
`mult` multiplies the unsigned values: for −1 × 1 the code leaves
`HI = 0`, while the 64-bit signed product −1 has high word 0xFFFFFFFF. -/
theorem mult_zero_extends :
    exec multTestState (.Mult 1 2) =
      .ok (true, { multTestState with hi := 0, lo := 4294967295 }) ∧
    multSpecHi 4294967295 1 = 4294967295 ∧
    (0 : Nat) ≠ 4294967295 := by
  refine ⟨rfl, by decide, by decide⟩

theorem except_bind_ok {A B : Type} (a : A) (f : A → Except EmuError B) :
    (Except.ok a >>= f : Except EmuError B) = f a := rfl

/-- Characterization of a non-halting `step` through the fetch result. -/
theorem step_eq_of_read (st : MipsState) (w : Nat) (st1 : MipsState)
    (hpc : st.pc ≠ 0x8123456c) (hread : st.read st.pc = .ok (w, st1)) :
    step st = exec { st1 with pc := (st1.pc + 4) % 4294967296 } (disassemble w) := by
  unfold step
  rw [if_neg hpc, hread]
  rfl

/-- C7 (confirmed): for every loaded state (`pc = 0`, `r31` holding the
sentinel, word 0 of memory holding `0x03E00008`, which is the encoding of
`jr $31`), one step executes and sets `PC` to the sentinel `0x8123_456C`
leaving every register unchanged, and the next step halts. -/
theorem jr31_halts (st : MipsState) (hpc : st.pc = 0)
    (hr31 : st.registers 31 = 0x8123456c)
    (hmem : st.memory 0 = some 0x03E00008) :
    assemble (.Jr 31) = some 0x03E00008 ∧
    step st = .ok (true, { st with pc := 0x8123456c }) ∧
    step { st with pc := 0x8123456c } = .ok (false, { st with pc := 0x8123456c }) := by
  refine ⟨by decide, ?_, by simp [step]⟩
  have hread : st.read st.pc = .ok (0x03E00008, st) := by
    rw [hpc]
    simp [MipsState.read, hmem]
  have hdec : disassemble 0x03E00008 = .Jr 31 := by decide
  rw [step_eq_of_read st 0x03E00008 st (by rw [hpc]; decide) hread, hdec]
  have hreg : regGet { st with pc := (st.pc + 4) % 4294967296 } 31 = .ok 0x8123456c := by
    rw [regGet, dif_pos (by norm_num : (31:Nat) < 32)]
    exact congrArg Except.ok hr31
  rw [exec, hreg]
  rfl

/-- Witness for `jr31_halts`: the freshly loaded one-word program
`[0x03E00008]`. -/
theorem jr31_halts_witness :
    assemble (.Jr 31) = some 0x03E00008 ∧
    step (MipsEmulator_new [0x03E00008] []) =
      .ok (true, { MipsEmulator_new [0x03E00008] [] with pc := 0x8123456c }) ∧
    step { MipsEmulator_new [0x03E00008] [] with pc := 0x8123456c } =
      .ok (false, { MipsEmulator_new [0x03E00008] [] with pc := 0x8123456c }) :=
  jr31_halts (MipsEmulator_new [0x03E00008] []) rfl rfl rfl

/-- C8 (confirmed): the interpreter's `sltu d,s,t` sets `R[d]` to 1 iff
`R[s] ≤ R[t]` as unsigned values — less-than-OR-EQUAL, the reference
quirk — and to 0 otherwise. -/
theorem sltu_le_semantics (st : MipsState) (w d s t : Nat)
    (hpc : st.pc ≠ 0x8123456c) (hpcm : st.pc ≠ 0xffff0004)
    (hmem : st.memory (st.pc / 4) = some w)
    (hdec : disassemble w = .Sltu d s t)
    (hd : d < 32) (hs : s < 32) (ht : t < 32) :
    step st = .ok (true,
      { st with
        pc := (st.pc + 4) % 4294967296
        registers := (fun j => if j = ⟨d, hd⟩ then
          (if st.registers ⟨s, hs⟩ ≤ st.registers ⟨t, ht⟩ then 1 else 0)
          else st.registers j) }) := by
  have hread : st.read st.pc = .ok (w, st) := by
    rw [MipsState.read, if_neg hpcm, hmem]
  rw [step_eq_of_read st w st hpc hread, hdec]
  simp only [exec, regGet, regSet, dif_pos hs, dif_pos ht, dif_pos hd, except_bind_ok]

/-- A state whose word 0 encodes `sltu $3, $1, $2`, with `R[i] = i`. -/
def sltuTestState : MipsState :=
  { memory := fun k => if k = 0 then some (std_word 1 2 3 0x2b) else none
  , registers := fun i => i.val
  , lo := 0, hi := 0, pc := 0, stdin := [], stdout := [] }

/-- Witness for `sltu_le_semantics` at `sltu $3, $1, $2` with `R[1] = 1 ≤
R[2] = 2`. -/
theorem sltu_le_semantics_witness :
    step sltuTestState = .ok (true,
      { sltuTestState with
        pc := (sltuTestState.pc + 4) % 4294967296
        registers := (fun j => if j = ⟨3, by norm_num⟩ then
          (if sltuTestState.registers ⟨1, by norm_num⟩ ≤
              sltuTestState.registers ⟨2, by norm_num⟩ then 1 else 0)
          else sltuTestState.registers j) }) :=
  sltu_le_semantics sltuTestState (std_word 1 2 3 0x2b) 3 1 2 (by decide) (by decide)
    rfl (by decide) (by norm_num) (by norm_num) (by norm_num)

theorem except_bind_error {A B : Type} (e : EmuError) (f : A → Except EmuError B) :
    (Except.error e >>= f : Except EmuError B) = .error e := rfl

/-- Register-index fields stored in an instruction are all within `[0,31]`. -/
def regFieldsOk : Instruction → Prop
  | .Add d s t => d < 32 ∧ s < 32 ∧ t < 32
  | .Sub d s t => d < 32 ∧ s < 32 ∧ t < 32
  | .Slt d s t => d < 32 ∧ s < 32 ∧ t < 32
  | .Sltu d s t => d < 32 ∧ s < 32 ∧ t < 32
  | .Mult s t => s < 32 ∧ t < 32
  | .Multu s t => s < 32 ∧ t < 32
  | .Div s t => s < 32 ∧ t < 32
  | .Divu s t => s < 32 ∧ t < 32
  | .Mfhi d => d < 32
  | .Mflo d => d < 32
  | .Lis d => d < 32
  | .Lw t _ s => t < 32 ∧ s < 32
  | .Sw t _ s => t < 32 ∧ s < 32
  | .Beq s t _ => s < 32 ∧ t < 32
  | .Bne s t _ => s < 32 ∧ t < 32
  | .Jr s => s < 32
  | .Jalr s => s < 32
  | .Word _ => True
  | .Noop => True

theorem disassemble_regFieldsOk (w : Nat) : regFieldsOk (disassemble w) := by
  have h31 : ∀ x : Nat, x &&& 31 < 32 := by
    intro x
    rw [and_mask31]
    omega
  rw [disassemble]
  by_cases h1 : w >>> 26 = 35
  · rw [if_pos h1]
    exact ⟨h31 _, h31 _⟩
  · rw [if_neg h1]
    by_cases h2 : w >>> 26 = 43
    · rw [if_pos h2]
      exact ⟨h31 _, h31 _⟩
    · rw [if_neg h2]
      by_cases h3 : w >>> 26 = 4
      · rw [if_pos h3]
        exact ⟨h31 _, h31 _⟩
      · rw [if_neg h3]
        by_cases h4 : w >>> 26 = 5
        · rw [if_pos h4]
          exact ⟨h31 _, h31 _⟩
        · rw [if_neg h4]
          by_cases h5 : w >>> 26 = 0
          · rw [if_pos h5]
            by_cases g1 : w &&& 63 = 32
            · rw [if_pos g1]
              exact ⟨h31 _, h31 _, h31 _⟩
            · rw [if_neg g1]
              by_cases g2 : w &&& 63 = 34
              · rw [if_pos g2]
                exact ⟨h31 _, h31 _, h31 _⟩
              · rw [if_neg g2]
                by_cases g3 : w &&& 63 = 24
                · rw [if_pos g3]
                  exact ⟨h31 _, h31 _⟩
                · rw [if_neg g3]
                  by_cases g4 : w &&& 63 = 25
                  · rw [if_pos g4]
                    exact ⟨h31 _, h31 _⟩
                  · rw [if_neg g4]
                    by_cases g5 : w &&& 63 = 26
                    · rw [if_pos g5]
                      exact ⟨h31 _, h31 _⟩
                    · rw [if_neg g5]
                      by_cases g6 : w &&& 63 = 27
                      · rw [if_pos g6]
                        exact ⟨h31 _, h31 _⟩
                      · rw [if_neg g6]
                        by_cases g7 : w &&& 63 = 16
                        · rw [if_pos g7]
                          exact h31 _
                        · rw [if_neg g7]
                          by_cases g8 : w &&& 63 = 18
                          · rw [if_pos g8]
                            exact h31 _
                          · rw [if_neg g8]
                            by_cases g9 : w &&& 63 = 20
                            · rw [if_pos g9]
                              exact h31 _
                            · rw [if_neg g9]
                              by_cases g10 : w &&& 63 = 42
                              · rw [if_pos g10]
                                exact ⟨h31 _, h31 _, h31 _⟩
                              · rw [if_neg g10]
                                by_cases g11 : w &&& 63 = 43
                                · rw [if_pos g11]
                                  exact ⟨h31 _, h31 _, h31 _⟩
                                · rw [if_neg g11]
                                  by_cases g12 : w &&& 63 = 8
                                  · rw [if_pos g12]
                                    exact h31 _
                                  · rw [if_neg g12]
                                    by_cases g13 : w &&& 63 = 9
                                    · rw [if_pos g13]
                                      exact h31 _
                                    · rw [if_neg g13]
                                      trivial
          · rw [if_neg h5]
            trivial

theorem read_ne_oob (st : MipsState) (a : Nat) :
    st.read a ≠ .error .regOutOfBounds := by
  unfold MipsState.read
  split
  · split <;> simp
  · split <;> simp

theorem exec_ne_oob (st : MipsState) (instr : Instruction) (h : regFieldsOk instr) :
    exec st instr ≠ .error .regOutOfBounds := by
  cases instr with
  | Add d s t =>
    obtain ⟨hd, hs, ht⟩ := h
    simp only [exec, regGet, regSet, dif_pos hs, dif_pos ht, dif_pos hd, except_bind_ok]
    simp
  | Sub d s t =>
    obtain ⟨hd, hs, ht⟩ := h
    simp only [exec, regGet, regSet, dif_pos hs, dif_pos ht, dif_pos hd, except_bind_ok]
    simp
  | Slt d s t =>
    obtain ⟨hd, hs, ht⟩ := h
    simp only [exec, regGet, regSet, dif_pos hs, dif_pos ht, dif_pos hd, except_bind_ok]
    simp
  | Sltu d s t =>
    obtain ⟨hd, hs, ht⟩ := h
    simp only [exec, regGet, regSet, dif_pos hs, dif_pos ht, dif_pos hd, except_bind_ok]
    simp
  | Mult s t =>
    obtain ⟨hs, ht⟩ := h
    simp only [exec, regGet, dif_pos hs, dif_pos ht, except_bind_ok]
    simp
  | Multu s t =>
    obtain ⟨hs, ht⟩ := h
    simp only [exec, regGet, dif_pos hs, dif_pos ht, except_bind_ok]
    simp
  | Div s t =>
    obtain ⟨hs, ht⟩ := h
    simp only [exec, regGet, dif_pos hs, dif_pos ht, except_bind_ok]
    split_ifs <;> simp
  | Divu s t =>
    obtain ⟨hs, ht⟩ := h
    simp only [exec, regGet, dif_pos hs, dif_pos ht, except_bind_ok]
    split_ifs <;> simp
  | Mfhi d =>
    have hd : d < 32 := h
    simp only [exec, regSet, dif_pos hd, except_bind_ok]
    simp
  | Mflo d =>
    have hd : d < 32 := h
    simp only [exec, regSet, dif_pos hd, except_bind_ok]
    simp
  | Lis d =>
    have hd : d < 32 := h
    simp only [exec]
    cases hr : st.read st.pc with
    | error e =>
      rw [except_bind_error]
      intro hc
      injection hc with he
      exact read_ne_oob st st.pc (he ▸ hr)
    | ok v =>
      rw [except_bind_ok]
      simp only [regSet, dif_pos hd, except_bind_ok]
      simp
  | Lw t i s =>
    cases i with
    | Literal iv =>
      obtain ⟨ht, hs⟩ := h
      simp only [exec, regGet, dif_pos hs, except_bind_ok]
      cases hr : st.read (toU32 (toI32 (st.registers ⟨s, hs⟩) + toI16 iv)) with
      | error e =>
        rw [except_bind_error]
        intro hc
        injection hc with he
        exact read_ne_oob st _ (he ▸ hr)
      | ok v =>
        rw [except_bind_ok]
        simp only [regSet, dif_pos ht, except_bind_ok]
        simp
    | Label l => simp [exec]
  | Sw t i s =>
    cases i with
    | Literal iv =>
      obtain ⟨ht, hs⟩ := h
      simp only [exec, regGet, dif_pos hs, dif_pos ht, except_bind_ok]
      simp
    | Label l => simp [exec]
  | Beq s t i =>
    cases i with
    | Literal iv =>
      obtain ⟨hs, ht⟩ := h
      by_cases hst : s = t
      · simp only [exec, if_pos hst]
        simp
      · simp only [exec, if_neg hst, regGet, dif_pos hs, dif_pos ht, except_bind_ok]
        split_ifs <;> simp
    | Label l => simp [exec]
  | Bne s t i =>
    cases i with
    | Literal iv =>
      obtain ⟨hs, ht⟩ := h
      by_cases hst : s = t
      · simp only [exec, if_pos hst]
        simp
      · simp only [exec, if_neg hst, regGet, dif_pos hs, dif_pos ht, except_bind_ok]
        split_ifs <;> simp
    | Label l => simp [exec]
  | Jr s =>
    have hs : s < 32 := h
    simp only [exec, regGet, dif_pos hs, except_bind_ok]
    simp
  | Jalr s =>
    have hs : s < 32 := h
    simp only [exec, regGet, regSet, dif_pos hs,
      dif_pos (show (31:Nat) < 32 by norm_num), except_bind_ok]
    simp
  | Word i => simp [exec]
  | Noop => simp [exec]

theorem step_ne_oob (st : MipsState) : step st ≠ .error .regOutOfBounds := by
  unfold step
  by_cases hpc : st.pc = 0x8123456c
  · rw [if_pos hpc]
    simp
  · rw [if_neg hpc]
    cases hr : st.read st.pc with
    | error e =>
      rw [except_bind_error]
      intro hc
      injection hc with he
      exact read_ne_oob st st.pc (he ▸ hr)
    | ok p =>
      rw [except_bind_ok]
      exact exec_ne_oob _ _ (disassemble_regFieldsOk p.1)

/-- C9 (confirmed): every register-index field produced by `disassemble`
is masked to 5 bits and so lies in `[0,31]`, and consequently no
interpreter step can fail with a register-file out-of-bounds access. -/
theorem decoded_register_access_safe (w : Nat) (st : MipsState) :
    regFieldsOk (disassemble w) ∧ step st ≠ .error .regOutOfBounds :=
  ⟨disassemble_regFieldsOk w, step_ne_oob st⟩

/-- C10 (confirmed): MMIO dispatch is by exact byte-address equality.
Reads touch stdin only at exactly `0xFFFF_0004` and writes touch stdout
only at exactly `0xFFFF_000C`; every other byte address — including the
unaligned neighbours `0xFFFF_0005..0xFFFF_0007` of the read port — is
served from (or stored to) the backing word map at key `addr / 4`, with a
read of an uninitialized word fatal. -/
theorem mmio_exact_dispatch (st : MipsState) (addr v : Nat) :
    (addr ≠ 0xffff0004 → st.read addr =
      (match st.memory (addr / 4) with
       | some word => .ok (word, st)
       | none => .error .uninitMemory)) ∧
    (st.read 0xffff0004 =
      (match st.stdin with
       | [] => .ok (0, st)
       | _ :: rest => .ok (1, { st with stdin := rest }))) ∧
    (addr ≠ 0xffff000c → st.write addr v =
      { st with memory := fun k => if k = addr / 4 then some v else st.memory k }) ∧
    (st.write 0xffff000c v = { st with stdout := st.stdout ++ [v &&& 255] }) := by
  refine ⟨?_, ?_, ?_, ?_⟩
  · intro h
    rw [MipsState.read, if_neg h]
  · rw [MipsState.read, if_pos rfl]
  · intro h
    rw [MipsState.write, if_neg h]
  · rw [MipsState.write, if_pos rfl]

/-- Witness for `mmio_exact_dispatch`: the unaligned address `0xFFFF_0005`
shares the word of the read port but is served from the memory map. -/
theorem mmio_exact_dispatch_witness :
    (MipsEmulator_new [] [7]).read 0xffff0005 =
      (match (MipsEmulator_new [] [7]).memory (0xffff0005 / 4) with
       | some word => .ok (word, MipsEmulator_new [] [7])
       | none => .error .uninitMemory) ∧
    (MipsEmulator_new [] [7]).write 0xffff0005 9 =
      { MipsEmulator_new [] [7] with
        memory := fun k => if k = 0xffff0005 / 4 then some 9
          else (MipsEmulator_new [] [7]).memory k } :=
  ⟨(mmio_exact_dispatch (MipsEmulator_new [] [7]) 0xffff0005 9).1 (by decide),
   (mmio_exact_dispatch (MipsEmulator_new [] [7]) 0xffff0005 9).2.2.1 (by decide)⟩
